import Mathlib

/-!
Shallow embedding of `src/widgets/gauge.rs` (the `Gauge2` progress-gauge
widget) together with the external collaborator types it uses.  The widget
code itself (the `Gauge2` struct, its builder methods and its `render`
implementation) is translated from the source; the collaborators (`Rect`,
`Buffer`, `Block`, `Style`, `Span`, `Color`) come from the `tui` crate,
which is outside the repository, and are therefore modelled from the spec's
description of them.

Machine-arithmetic conventions: `u16` values are embedded as `ℕ`; every
`u16` operation of the widget's own code that can leave the `u16` range —
the subtractions in the label placement as well as the additions that
compute the fill end column, the center row and the label start column —
is modelled with explicit wrap-around modulo 2^16, matching Rust's
release-mode wrapping semantics.  `f64` values are embedded as `ℚ`
extended with a NaN point (`F64`); `f64::round` (round half away from
zero) and the saturating `as u16` cast are modelled explicitly.
-/

namespace Vdash

/-- Modelled from the spec: the rectangle type of the buffer collaborator,
"a rectangle (left, top, width, height as non-negative integers)".  The
accessor names follow the interface the source calls. -/
structure Rect where
  x : ℕ
  y : ℕ
  width : ℕ
  height : ℕ
deriving DecidableEq

def Rect.left (r : Rect) : ℕ := r.x

def Rect.top (r : Rect) : ℕ := r.y

def Rect.right (r : Rect) : ℕ := r.x + r.width

def Rect.bottom (r : Rect) : ℕ := r.y + r.height

/-- Whether the point `(px, py)` lies inside the rectangle. -/
def Rect.containsB (r : Rect) (px py : ℕ) : Bool :=
  decide (r.left ≤ px ∧ px < r.right ∧ r.top ≤ py ∧ py < r.bottom)

/-- Modelled from the spec: terminal colors with the distinguished
"reset/transparent" sentinel.  Only the constructors the claims exercise
are listed; the renderer treats colors opaquely. -/
inductive Color where
  | Reset
  | Black
  | Red
  | Green
  | Yellow
  | Blue
  | Magenta
  | Cyan
  | Gray
  | White
deriving DecidableEq

/-- Modelled from the spec: a style value, "foreground/background color +
modifiers", where an unset color is a distinct state from any concrete
color.  Modifiers are a bit set, embedded as `ℕ`. -/
structure Style where
  fg : Option Color := none
  bg : Option Color := none
  add_modifier : ℕ := 0
  sub_modifier : ℕ := 0
deriving DecidableEq

/-- Modelled from the spec: one character-sized unit of the display buffer,
"holding a glyph/symbol and foreground/background colors plus style
modifiers".  A fresh cell holds a space with both colors reset. -/
structure Cell where
  symbol : String := " "
  fg : Color := Color.Reset
  bg : Color := Color.Reset
  modifier : ℕ := 0
deriving DecidableEq

def Cell.set_symbol (c : Cell) (s : String) : Cell := { c with symbol := s }

def Cell.set_fg (c : Cell) (color : Color) : Cell := { c with fg := color }

def Cell.set_bg (c : Cell) (color : Color) : Cell := { c with bg := color }

/-- Modelled from the spec: applying a style to a cell updates the cell's
colors where the style sets them, inserts the style's added modifier bits
and removes its subtracted ones; the symbol is untouched. -/
def Cell.set_style (c : Cell) (s : Style) : Cell :=
  { c with
    fg := s.fg.getD c.fg
    bg := s.bg.getD c.bg
    modifier := Nat.ldiff (c.modifier ||| s.add_modifier) s.sub_modifier }

/-- Modelled from the spec: "a 2D grid of cells ... addressable by integer
coordinates".  The grid is a total function over coordinates together with
the rectangle of cells the buffer actually owns; writes outside that
rectangle are clipped away. -/
structure Buffer where
  area : Rect
  content : ℕ → ℕ → Cell

/-- Modelled from the spec: a single-cell write (the source's
`buf.get_mut(x, y)` followed by a cell mutation), clipped at the buffer
boundary. -/
def Buffer.modifyCell (buf : Buffer) (px py : ℕ) (f : Cell → Cell) : Buffer :=
  if buf.area.containsB px py then
    { buf with content := fun a b =>
        if a = px ∧ b = py then f (buf.content a b) else buf.content a b }
  else buf

/-- Modelled from the spec: the bulk "set style over rectangle" operation
of the buffer collaborator: every owned cell inside `r` has the style
applied; symbols are untouched. -/
def Buffer.set_style (buf : Buffer) (r : Rect) (s : Style) : Buffer :=
  { buf with content := fun a b =>
      if r.containsB a b && buf.area.containsB a b then (buf.content a b).set_style s
      else buf.content a b }

/-- Modelled from the spec: a styled text span; one list entry per cell
glyph. -/
structure Span where
  content : List Char
  style : Style
deriving DecidableEq

/-- Display width of the span (one cell per glyph). -/
def Span.width (s : Span) : ℕ := s.content.length

/-- A span over a plain string with the default style (the source's
`Span::from(string)`). -/
def Span.raw (s : String) : Span := ⟨s.toList, {}⟩

/-- Modelled from the spec: the "write styled text span at position,
clipped to N cells" operation: glyph `i` of the span goes to column
`px + i` of row `py`, at most `maxWidth` glyphs are drawn, every touched
cell also gets the span's own style, and writes outside the buffer are
clipped away. -/
def Buffer.set_span (buf : Buffer) (px py : ℕ) (s : Span) (maxWidth : ℕ) : Buffer :=
  (List.range (min s.content.length maxWidth)).foldl
    (fun b i =>
      b.modifyCell (px + i) py
        (fun c => (c.set_symbol (String.mk [s.content.getD i ' '])).set_style s.style))
    buf

/-- Modelled from the spec: the optional Container capability, "exposing
`innerRect(outerRect) -> Rect` and `render(outerRect, buffer)`". -/
structure Block where
  inner : Rect → Rect
  render : Rect → Buffer → Buffer

/-- An `f64` value: either an exact rational or the NaN point.  Rational
arithmetic stands in for the (here numerically tame) float arithmetic of
the source; NaN is kept because the setter guards compare against it. -/
inductive F64 where
  | finite (val : ℚ)
  | nan
deriving DecidableEq

/-- Float `<=`: false whenever either side is NaN. -/
def F64.le : F64 → F64 → Bool
  | F64.finite a, F64.finite b => decide (a ≤ b)
  | _, _ => false

/-- Float `<`: false whenever either side is NaN. -/
def F64.lt : F64 → F64 → Bool
  | F64.finite a, F64.finite b => decide (a < b)
  | _, _ => false

/-- Float `>=`, as Rust's `PartialOrd::ge`: false whenever either side is
NaN. -/
def F64.ge (a b : F64) : Bool := F64.le b a

/-- The rational carried by a finite float (0 for NaN; never consulted on
NaN by the code below, whose guards reject NaN first). -/
def F64.toRat : F64 → ℚ
  | F64.finite a => a
  | F64.nan => 0

/-- `f64::round`: round half away from zero. -/
def f64round (q : ℚ) : ℤ :=
  if 0 ≤ q then ⌊q + 1/2⌋ else ⌈q - 1/2⌉

/-- The `as u16` cast on an already-rounded float: saturating. -/
def f64_as_u16 (z : ℤ) : ℕ := min z.toNat 65535

/-- Rust release-mode `u16` subtraction: wraps modulo 2^16 on underflow. -/
def u16_wrapping_sub (a b : ℕ) : ℕ :=
  (a % 65536 + 65536 - b % 65536) % 65536

/-- Rust release-mode `u16` addition: wraps modulo 2^16 on overflow. -/
def u16_wrapping_add (a b : ℕ) : ℕ := (a + b) % 65536

/-- `for x in lo..hi` folded over a state. -/
def natFold {α : Type _} (lo hi : ℕ) (f : ℕ → α → α) (init : α) : α :=
  (List.range' lo (hi - lo)).foldl (fun acc n => f n acc) init

/-- The widget state of `Gauge2` (source: `struct Gauge2`). -/
structure Gauge2 where
  block : Option Block
  ratio : ℚ
  label : Option Span
  style : Style
  gauge_style : Style

/-- Source: `impl Default for Gauge2`. -/
def Gauge2.default : Gauge2 :=
  { block := none
    ratio := 0
    label := none
    style := {}
    gauge_style := {} }

/-- Source: `Gauge2::block` (named `block'` because the field already
takes the source name). -/
def Gauge2.block' (g : Gauge2) (b : Block) : Gauge2 := { g with block := some b }

/-- Source: `Gauge2::percent`.  The `assert!(percent <= 100, ...)` is
modelled by returning `none` (panic) when the assertion fails; `percent`
is a `u16`, embedded as `ℕ`. -/
def Gauge2.percent (g : Gauge2) (percent : ℕ) : Option Gauge2 :=
  if percent ≤ 100 then some { g with ratio := (percent : ℚ) / 100 } else none

/-- Source: `Gauge2::ratio` (named `ratio'` because the field already
takes the source name).  The guard is exactly the source's
`ratio <= 1.0 && ratio >= 0.0`; `none` models the panic. -/
def Gauge2.ratio' (g : Gauge2) (r : F64) : Option Gauge2 :=
  if r.le (F64.finite 1) && r.ge (F64.finite 0) then some { g with ratio := r.toRat }
  else none

/-- Source: `Gauge2::label` (named `label'` for the same reason). -/
def Gauge2.label' (g : Gauge2) (l : Span) : Gauge2 := { g with label := some l }

/-- Source: `Gauge2::style` (named `style'` for the same reason). -/
def Gauge2.style' (g : Gauge2) (s : Style) : Gauge2 := { g with style := s }

/-- Source: `Gauge2::gauge_style` (named `gauge_style'` for the same
reason). -/
def Gauge2.gauge_style' (g : Gauge2) (s : Style) : Gauge2 := { g with gauge_style := s }

/-- The drawable rectangle computed at the top of `Gauge2::render`: the
container's inner rectangle, overridden to the full `area` when
`area.height == 1`, or `area` itself when no container is set. -/
def Gauge2.gaugeArea (g : Gauge2) (area : Rect) : Rect :=
  match g.block with
  | some b =>
      let inner_area := b.inner area
      if area.height = 1 then area else inner_area
  | none => area

/-- The style phase of `Gauge2::render`: base style over `area`, the
container drawn over `area`, then the gauge style over the drawable
rectangle — everything the source does before the `height < 1` guard. -/
def Gauge2.prePaint (g : Gauge2) (area : Rect) (buf : Buffer) : Buffer :=
  let buf := buf.set_style area g.style
  let buf :=
    match g.block with
    | some b => b.render area buf
    | none => buf
  buf.set_style (g.gaugeArea area) g.gauge_style

/-- Source: `let width = (f64::from(gauge_area.width) * self.ratio).round() as u16`. -/
def fillWidth (w : ℕ) (r : ℚ) : ℕ := f64_as_u16 (f64round ((w : ℚ) * r))

/-- Source: `let middle = (gauge_area.width - label_width) / 2 + gauge_area.left()`
— `u16` arithmetic throughout: the subtraction wraps on underflow and the
final addition of the left edge wraps on overflow. -/
def labelMiddle (ga : Rect) (label_width : ℕ) : ℕ :=
  u16_wrapping_add (u16_wrapping_sub ga.width label_width / 2) ga.left

/-- Source: the label resolution in `render`:
`self.label.unwrap_or_else(|| Span::from(format!("{}%", (ratio * 100.0).round())))`.
Rust's `Display` prints the integral rounded float without a decimal
point, hence `toString` of the integer. -/
def Gauge2.renderLabel (g : Gauge2) : Span :=
  g.label.getD (Span.raw (toString (f64round (g.ratio * 100)) ++ "%"))

/-- Source: the "Fix colors" write applied to each filled cell:
`set_fg(gauge_style.bg.unwrap_or(Reset)).set_bg(gauge_style.fg.unwrap_or(Reset))`. -/
def swapColors (g : Gauge2) (c : Cell) : Cell :=
  (c.set_fg (g.gauge_style.bg.getD Color.Reset)).set_bg (g.gauge_style.fg.getD Color.Reset)

/-- One iteration of the row loop of `Gauge2::render`: write spaces over
the fill range, write the label when on the center row, then re-apply the
swapped fill colors over the fill range. -/
def Gauge2.rowStep (g : Gauge2) (ga : Rect) (center endCol : ℕ) (label : Span)
    (yy : ℕ) (buf : Buffer) : Buffer :=
  let buf := natFold ga.left endCol
    (fun x b => b.modifyCell x yy (fun c => c.set_symbol " ")) buf
  let buf :=
    if yy = center then
      let label_width := label.width % 65536
      let middle := labelMiddle ga label_width
      buf.set_span middle yy label (u16_wrapping_sub ga.right middle)
    else buf
  natFold ga.left endCol
    (fun x b => b.modifyCell x yy (fun c => swapColors g c)) buf

/-- Source: `impl Widget for Gauge2 { fn render(...) }`, assembled from the
pieces above in the source's order.  `center` and the fill end column are
`u16` sums and wrap on overflow (release semantics).  The second binding
of `center` is the source's dead re-assignment under the already-excluded
`height < 1`. -/
def Gauge2.render (g : Gauge2) (area : Rect) (buf : Buffer) : Buffer :=
  let ga := g.gaugeArea area
  let buf := g.prePaint area buf
  if ga.height < 1 then buf
  else
    let center := u16_wrapping_add (ga.height / 2) ga.top
    let center := if ga.height < 1 then u16_wrapping_add ga.height ga.top else center
    let width := fillWidth ga.width g.ratio
    let endCol := u16_wrapping_add ga.left width
    let label := g.renderLabel
    natFold ga.top ga.bottom (fun yy b => g.rowStep ga center endCol label yy b) buf

/-- Modelled from the spec, for refinement comparison with `labelMiddle`:
the label start column described as
`middle = drawable.left + (drawable.width - label_width) / 2` over the
integers with floor division (Lean's integer division by a positive
divisor rounds toward negative infinity), a value the spec allows to be
negative when the label is wider than the drawable rectangle. -/
def middleSpec (ga : Rect) (label_width : ℕ) : ℤ :=
  (ga.left : ℤ) + ((ga.width : ℤ) - (label_width : ℤ)) / 2

/-- A concrete container used by witnesses: insets by one cell on each
side and draws nothing. -/
def sampleBlock : Block :=
  ⟨fun r => ⟨r.x + 1, r.y + 1, r.width - 2, r.height - 2⟩, fun _ buf => buf⟩

/-- A 40000-column single-row buffer of fresh cells (wide enough to own
the columns that a wrapped label placement lands on). -/
def wideBuf : Buffer := ⟨⟨0, 0, 40000, 1⟩, fun _ _ => {}⟩

/-- A 5x2 buffer of fresh cells. -/
def buf5x2 : Buffer := ⟨⟨0, 0, 5, 2⟩, fun _ _ => {}⟩

/-- A 10x3 buffer of fresh cells. -/
def buf10x3 : Buffer := ⟨⟨0, 0, 10, 3⟩, fun _ _ => {}⟩

/-- A buffer owning exactly the single-row region of columns
[60000, 66000): a region whose right edge exceeds the `u16` range, so the
fill end column wraps. -/
def bufFarRight : Buffer := ⟨⟨60000, 0, 6000, 1⟩, fun _ _ => {}⟩

/-- A buffer owning exactly the two rows 65535 and 65536 of a 10-column
region: a region whose center row computation wraps. -/
def bufTopEdge : Buffer := ⟨⟨0, 65535, 10, 2⟩, fun _ _ => {}⟩

/-- A gauge style with distinguishable fill colors, for witnesses. -/
def greenOnBlack : Style := { fg := some Color.Green, bg := some Color.Black }

/-- A fully filled gauge with distinguishable fill colors. -/
def gaugeFull : Gauge2 :=
  { Gauge2.default with ratio := 1, gauge_style := greenOnBlack }

/-- A half filled gauge with default styles. -/
def gaugeHalf : Gauge2 := { Gauge2.default with ratio := 1 / 2 }

/-! ### Pointwise characterisation of the rendering passes -/

theorem Rect.containsB_iff (r : Rect) (px py : ℕ) :
    r.containsB px py = true ↔
      (r.left ≤ px ∧ px < r.right ∧ r.top ≤ py ∧ py < r.bottom) := by
  simp [Rect.containsB]

theorem Cell.set_style_symbol (c : Cell) (s : Style) : (c.set_style s).symbol = c.symbol := rfl

theorem swapColors_symbol (g : Gauge2) (c : Cell) : (swapColors g c).symbol = c.symbol := rfl

theorem swapColors_fg (g : Gauge2) (c : Cell) :
    (swapColors g c).fg = g.gauge_style.bg.getD Color.Reset := rfl

theorem swapColors_bg (g : Gauge2) (c : Cell) :
    (swapColors g c).bg = g.gauge_style.fg.getD Color.Reset := rfl

theorem Buffer.modifyCell_area (buf : Buffer) (px py : ℕ) (f : Cell → Cell) :
    (buf.modifyCell px py f).area = buf.area := by
  unfold Buffer.modifyCell; split <;> rfl

theorem Buffer.set_style_area (buf : Buffer) (r : Rect) (s : Style) :
    (buf.set_style r s).area = buf.area := rfl

theorem Buffer.modifyCell_content (buf : Buffer) (px py : ℕ) (f : Cell → Cell) (a b : ℕ) :
    (buf.modifyCell px py f).content a b =
      if a = px ∧ b = py ∧ buf.area.containsB px py = true then f (buf.content a b)
      else buf.content a b := by
  unfold Buffer.modifyCell
  by_cases h : buf.area.containsB px py = true
  · rw [if_pos h]
    show (if a = px ∧ b = py then f (buf.content a b) else buf.content a b) = _
    by_cases hab : a = px ∧ b = py
    · rw [if_pos hab, if_pos ⟨hab.1, hab.2, h⟩]
    · rw [if_neg hab, if_neg (fun k => hab ⟨k.1, k.2.1⟩)]
  · rw [if_neg h, if_neg (fun k => h k.2.2)]

theorem Buffer.set_style_content (buf : Buffer) (r : Rect) (s : Style) (a b : ℕ) :
    (buf.set_style r s).content a b =
      if r.containsB a b = true ∧ buf.area.containsB a b = true then (buf.content a b).set_style s
      else buf.content a b := by
  simp only [Buffer.set_style, Bool.and_eq_true]

/-- Any fold of area-preserving steps preserves the buffer's area. -/
theorem foldl_area (l : List ℕ) (step : ℕ → Buffer → Buffer)
    (h : ∀ n b, (step n b).area = b.area) (buf : Buffer) :
    (l.foldl (fun acc n => step n acc) buf).area = buf.area := by
  induction l generalizing buf with
  | nil => rfl
  | cons n t ih => rw [List.foldl_cons]; rw [ih (step n buf), h]

theorem natFold_area (lo hi : ℕ) (step : ℕ → Buffer → Buffer)
    (h : ∀ n b, (step n b).area = b.area) (buf : Buffer) :
    (natFold lo hi step buf).area = buf.area :=
  foldl_area _ step h buf

/-- Folding single-cell writes (with a per-column cell function) over a row:
the pointwise result. -/
theorem foldl_modify_row_content (g : ℕ → Cell → Cell) (px py : ℕ) (n : ℕ)
    (buf : Buffer) (a b : ℕ) :
    ((List.range n).foldl (fun acc i => acc.modifyCell (px + i) py (g i)) buf).content a b =
      if px ≤ a ∧ a < px + n ∧ b = py ∧ buf.area.containsB a b = true then
        g (a - px) (buf.content a b)
      else buf.content a b := by
  induction n with
  | zero =>
      rw [List.range_zero, List.foldl_nil, if_neg]
      rintro ⟨h1, h2, -⟩; omega
  | succ n ih =>
      rw [show n + 1 = Nat.succ n from rfl, List.range_succ, List.foldl_append,
        List.foldl_cons, List.foldl_nil, Buffer.modifyCell_content,
        foldl_area (List.range n) (fun i acc => acc.modifyCell (px + i) py (g i))
          (fun i acc => Buffer.modifyCell_area acc (px + i) py (g i)), ih]
      by_cases hb : b = py
      · subst hb
        by_cases ha : a = px + n
        · subst ha
          by_cases hc : buf.area.containsB (px + n) b = true
          · rw [if_pos ⟨rfl, rfl, hc⟩, if_neg (by rintro ⟨-, h2, -⟩; omega),
              if_pos ⟨by omega, by omega, rfl, hc⟩]
            have hn : px + n - px = n := by omega
            rw [hn]
          · rw [if_neg (by rintro ⟨-, -, hcc⟩; exact hc hcc),
              if_neg (by rintro ⟨-, -, -, hcc⟩; exact hc hcc),
              if_neg (by rintro ⟨-, -, -, hcc⟩; exact hc hcc)]
        · rw [if_neg (by rintro ⟨h1, -, -⟩; exact ha h1)]
          by_cases h2 : px ≤ a ∧ a < px + n ∧ b = b ∧ buf.area.containsB a b = true
          · rw [if_pos h2, if_pos ⟨h2.1, by omega, rfl, h2.2.2.2⟩]
          · rw [if_neg h2, if_neg (by rintro ⟨k1, k2, -, k4⟩; exact h2 ⟨k1, by omega, rfl, k4⟩)]
      · rw [if_neg (by rintro ⟨-, h1, -⟩; exact hb h1),
          if_neg (by rintro ⟨-, -, h1, -⟩; exact hb h1),
          if_neg (by rintro ⟨-, -, h1, -⟩; exact hb h1)]

/-- Folding single-cell writes over an absolute column range at a fixed row. -/
theorem foldl_range'_modify_content (f : Cell → Cell) (py : ℕ) (s n : ℕ)
    (buf : Buffer) (a b : ℕ) :
    ((List.range' s n).foldl (fun acc x => acc.modifyCell x py f) buf).content a b =
      if s ≤ a ∧ a < s + n ∧ b = py ∧ buf.area.containsB a b = true then f (buf.content a b)
      else buf.content a b := by
  induction n generalizing s buf with
  | zero =>
      rw [show List.range' s 0 = [] from rfl, List.foldl_nil, if_neg]
      rintro ⟨h1, h2, -⟩; omega
  | succ n ih =>
      rw [List.range'_succ, List.foldl_cons, ih,
        Buffer.modifyCell_area, Buffer.modifyCell_content]
      by_cases hb : b = py
      · subst hb
        by_cases ha : a = s
        · subst ha
          by_cases hc : buf.area.containsB a b = true
          · rw [if_neg (by rintro ⟨h1, -, -⟩; omega),
              if_pos ⟨rfl, rfl, hc⟩, if_pos ⟨by omega, by omega, rfl, hc⟩]
          · rw [if_neg (by rintro ⟨-, -, -, hcc⟩; exact hc hcc),
              if_neg (by rintro ⟨-, -, hcc⟩; exact hc hcc),
              if_neg (by rintro ⟨-, -, -, hcc⟩; exact hc hcc)]
        · by_cases h2 : s + 1 ≤ a ∧ a < s + 1 + n ∧ b = b ∧ buf.area.containsB a b = true
          · rw [if_pos h2, if_neg (by rintro ⟨h1, -⟩; exact ha h1),
              if_pos ⟨by omega, by omega, rfl, h2.2.2.2⟩]
          · rw [if_neg h2, if_neg (by rintro ⟨h1, -⟩; exact ha h1),
              if_neg (by rintro ⟨k1, k2, -, k4⟩; exact h2 ⟨by omega, by omega, rfl, k4⟩)]
      · rw [if_neg (by rintro ⟨-, -, h1, -⟩; exact hb h1),
          if_neg (by rintro ⟨-, h1, -⟩; exact hb h1),
          if_neg (by rintro ⟨-, -, h1, -⟩; exact hb h1)]

/-- `natFold` version of the previous lemma, matching the fill and color
passes of the row loop. -/
theorem natFold_modify_content (f : Cell → Cell) (py lo hi : ℕ) (buf : Buffer) (a b : ℕ) :
    (natFold lo hi (fun x bf => bf.modifyCell x py f) buf).content a b =
      if lo ≤ a ∧ a < hi ∧ b = py ∧ buf.area.containsB a b = true then f (buf.content a b)
      else buf.content a b := by
  show ((List.range' lo (hi - lo)).foldl (fun acc x => acc.modifyCell x py f) buf).content a b = _
  rw [foldl_range'_modify_content]
  by_cases h : lo ≤ a ∧ a < hi ∧ b = py ∧ buf.area.containsB a b = true
  · rw [if_pos ⟨h.1, by omega, h.2.2⟩, if_pos h]
  · rw [if_neg (by rintro ⟨k1, k2, k3⟩; exact h ⟨k1, by omega, k3⟩), if_neg h]

theorem natFold_modify_area (f : Cell → Cell) (py lo hi : ℕ) (buf : Buffer) :
    (natFold lo hi (fun x bf => bf.modifyCell x py f) buf).area = buf.area :=
  foldl_area (List.range' lo (hi - lo)) (fun x bf => bf.modifyCell x py f)
    (fun n b => Buffer.modifyCell_area b n py f) buf

theorem Buffer.set_span_content (buf : Buffer) (px py : ℕ) (s : Span) (w : ℕ) (a b : ℕ) :
    (buf.set_span px py s w).content a b =
      if px ≤ a ∧ a < px + min s.content.length w ∧ b = py ∧ buf.area.containsB a b = true then
        ((buf.content a b).set_symbol (String.mk [s.content.getD (a - px) ' '])).set_style s.style
      else buf.content a b :=
  foldl_modify_row_content
    (fun i c => (c.set_symbol (String.mk [s.content.getD i ' '])).set_style s.style)
    px py (min s.content.length w) buf a b

theorem Buffer.set_span_area (buf : Buffer) (px py : ℕ) (s : Span) (w : ℕ) :
    (buf.set_span px py s w).area = buf.area :=
  foldl_area (List.range (min s.content.length w))
    (fun i b => b.modifyCell (px + i) py
      (fun c => (c.set_symbol (String.mk [s.content.getD i ' '])).set_style s.style))
    (fun n b => Buffer.modifyCell_area b (px + n) py _) buf

/-- The per-cell effect of one row-loop iteration, in closed form; used to
state the pointwise characterisation of `rowStep` and `render`. -/
def rowCell (g : Gauge2) (ga : Rect) (center endCol : ℕ) (label : Span) (yy a : ℕ)
    (c : Cell) : Cell :=
  let mid := labelMiddle ga (label.width % 65536)
  let clip := min label.content.length (u16_wrapping_sub ga.right mid)
  let c1 := if ga.left ≤ a ∧ a < endCol then c.set_symbol " " else c
  let c2 :=
    if yy = center ∧ mid ≤ a ∧ a < mid + clip then
      (c1.set_symbol (String.mk [label.content.getD (a - mid) ' '])).set_style label.style
    else c1
  if ga.left ≤ a ∧ a < endCol then swapColors g c2 else c2

theorem Gauge2.rowStep_area (g : Gauge2) (ga : Rect) (center endCol : ℕ) (label : Span)
    (yy : ℕ) (buf : Buffer) :
    (g.rowStep ga center endCol label yy buf).area = buf.area := by
  simp only [Gauge2.rowStep]
  rw [natFold_modify_area]
  by_cases h : yy = center
  · rw [if_pos h, Buffer.set_span_area, natFold_modify_area]
  · rw [if_neg h, natFold_modify_area]

theorem Gauge2.rowStep_content (g : Gauge2) (ga : Rect) (center endCol : ℕ) (label : Span)
    (yy : ℕ) (buf : Buffer) (a b : ℕ) :
    (g.rowStep ga center endCol label yy buf).content a b =
      if b = yy ∧ buf.area.containsB a b = true then
        rowCell g ga center endCol label yy a (buf.content a b)
      else buf.content a b := by
  simp only [Gauge2.rowStep, rowCell]
  rw [natFold_modify_content]
  by_cases hyc : yy = center
  · rw [if_pos hyc, Buffer.set_span_area, natFold_modify_area, Buffer.set_span_content,
      natFold_modify_area, natFold_modify_content]
    simp only [hyc, true_and]
    split_ifs <;> first | rfl | omega | tauto
  · rw [if_neg hyc, natFold_modify_area, natFold_modify_content]
    simp only [hyc, false_and, if_false]
    split_ifs <;> first | rfl | omega | tauto

/-- The row loop leaves rows it has not visited untouched and rewrites each
visited row according to `rowCell`. -/
theorem foldl_rowStep_content (g : Gauge2) (ga : Rect) (center endCol : ℕ) (label : Span)
    (s n : ℕ) (buf : Buffer) (a b : ℕ) :
    (((List.range' s n).foldl
        (fun acc yy => g.rowStep ga center endCol label yy acc) buf).content a b) =
      if s ≤ b ∧ b < s + n ∧ buf.area.containsB a b = true then
        rowCell g ga center endCol label b a (buf.content a b)
      else buf.content a b := by
  induction n generalizing s buf with
  | zero =>
      rw [show List.range' s 0 = [] from rfl, List.foldl_nil, if_neg]
      rintro ⟨h1, h2, -⟩; omega
  | succ n ih =>
      rw [List.range'_succ, List.foldl_cons, ih,
        Gauge2.rowStep_area, Gauge2.rowStep_content]
      by_cases hb : b = s
      · subst hb
        by_cases hc : buf.area.containsB a b = true
        · rw [if_neg (by rintro ⟨h1, -, -⟩; omega),
            if_pos ⟨rfl, hc⟩, if_pos ⟨by omega, by omega, hc⟩]
        · rw [if_neg (by rintro ⟨-, -, hcc⟩; exact hc hcc),
            if_neg (by rintro ⟨-, hcc⟩; exact hc hcc),
            if_neg (by rintro ⟨-, -, hcc⟩; exact hc hcc)]
      · by_cases h2 : s + 1 ≤ b ∧ b < s + 1 + n ∧ buf.area.containsB a b = true
        · rw [if_pos h2, if_neg (by rintro ⟨h1, -⟩; exact hb h1),
            if_pos ⟨by omega, by omega, h2.2.2⟩]
        · rw [if_neg h2, if_neg (by rintro ⟨h1, -⟩; exact hb h1),
            if_neg (by rintro ⟨k1, k2, k3⟩; exact h2 ⟨by omega, by omega, k3⟩)]

/-- Pointwise characterisation of `Gauge2.render` once the painting loop is
reached: outside the drawable rows the buffer keeps the style-phase result,
and each drawable row is rewritten cell by cell according to `rowCell`. -/
theorem Gauge2.render_content (g : Gauge2) (area : Rect) (buf : Buffer)
    (h : 1 ≤ (g.gaugeArea area).height) (a b : ℕ) :
    (g.render area buf).content a b =
      if (g.gaugeArea area).top ≤ b ∧ b < (g.gaugeArea area).bottom ∧
          (g.prePaint area buf).area.containsB a b = true then
        rowCell g (g.gaugeArea area)
          (u16_wrapping_add ((g.gaugeArea area).height / 2) (g.gaugeArea area).top)
          (u16_wrapping_add (g.gaugeArea area).left (fillWidth (g.gaugeArea area).width g.ratio))
          g.renderLabel b a ((g.prePaint area buf).content a b)
      else (g.prePaint area buf).content a b := by
  have hlt : ¬((g.gaugeArea area).height < 1) := by omega
  simp only [Gauge2.render]
  rw [if_neg hlt, if_neg hlt]
  show ((List.range' (g.gaugeArea area).top ((g.gaugeArea area).bottom - (g.gaugeArea area).top)).foldl
      (fun acc yy => g.rowStep (g.gaugeArea area)
        (u16_wrapping_add ((g.gaugeArea area).height / 2) (g.gaugeArea area).top)
        (u16_wrapping_add (g.gaugeArea area).left (fillWidth (g.gaugeArea area).width g.ratio))
        g.renderLabel yy acc) (g.prePaint area buf)).content a b = _
  rw [foldl_rowStep_content]
  have hbt : (g.gaugeArea area).bottom = (g.gaugeArea area).top + (g.gaugeArea area).height := rfl
  by_cases hcond : (g.gaugeArea area).top ≤ b ∧ b < (g.gaugeArea area).bottom ∧
      (g.prePaint area buf).area.containsB a b = true
  · rw [if_pos ⟨hcond.1, by omega, hcond.2.2⟩, if_pos hcond]
  · rw [if_neg (by rintro ⟨k1, k2, k3⟩; exact hcond ⟨k1, by omega, k3⟩), if_neg hcond]

/-! ### Projections of the per-cell row effect -/

theorem rowCell_fill_fg (g : Gauge2) (ga : Rect) (center endCol : ℕ) (label : Span)
    (yy a : ℕ) (c : Cell) (hf : ga.left ≤ a ∧ a < endCol) :
    (rowCell g ga center endCol label yy a c).fg = g.gauge_style.bg.getD Color.Reset := by
  simp only [rowCell]
  split_ifs with h1 h2 <;> first | rfl | exact absurd hf (by tauto)

theorem rowCell_fill_bg (g : Gauge2) (ga : Rect) (center endCol : ℕ) (label : Span)
    (yy a : ℕ) (c : Cell) (hf : ga.left ≤ a ∧ a < endCol) :
    (rowCell g ga center endCol label yy a c).bg = g.gauge_style.fg.getD Color.Reset := by
  simp only [rowCell]
  split_ifs with h1 h2 <;> first | rfl | exact absurd hf (by tauto)

theorem rowCell_fill_symbol_noncenter (g : Gauge2) (ga : Rect) (center endCol : ℕ)
    (label : Span) (yy a : ℕ) (c : Cell)
    (hf : ga.left ≤ a ∧ a < endCol) (hyc : yy ≠ center) :
    (rowCell g ga center endCol label yy a c).symbol = " " := by
  simp only [rowCell]
  split_ifs with h1 h2 <;>
    first | rfl | exact absurd hf (by tauto) | exact absurd h2.1 hyc | exact absurd h1.1 hyc

theorem rowCell_symbol_of_not_fill (g : Gauge2) (ga : Rect) (center endCol : ℕ)
    (label : Span) (yy a : ℕ) (c : Cell)
    (hf : ¬(ga.left ≤ a ∧ a < endCol)) (hyc : yy ≠ center) :
    (rowCell g ga center endCol label yy a c).symbol = c.symbol := by
  simp only [rowCell]
  split_ifs with h1 h2 <;>
    first | rfl | exact absurd h1 hf | exact absurd h2.1 hyc | exact absurd h1.1 hyc

theorem rowCell_label_symbol (g : Gauge2) (ga : Rect) (center endCol : ℕ) (label : Span)
    (yy a : ℕ) (c : Cell)
    (hs : yy = center ∧ labelMiddle ga (label.width % 65536) ≤ a ∧
      a < labelMiddle ga (label.width % 65536) +
        min label.content.length
          (u16_wrapping_sub ga.right (labelMiddle ga (label.width % 65536)))) :
    (rowCell g ga center endCol label yy a c).symbol =
      String.mk [label.content.getD (a - labelMiddle ga (label.width % 65536)) ' '] := by
  simp only [rowCell]
  split_ifs with h1 h2 <;> first | rfl | exact absurd hs (by tauto)

/-! ### Shared evaluation helpers -/

theorem f64round_of_nonneg (q : ℚ) (h : 0 ≤ q) : f64round q = ⌊q + 1/2⌋ := if_pos h

/-- For a ratio in `[0, 1]` the saturating cast never clamps: the fill
width is exactly the rounded product, and it never exceeds the drawable
width. -/
theorem fillWidth_eq_toNat (w : ℕ) (r : ℚ) (h0 : 0 ≤ r) (h1 : r ≤ 1) (hw : w ≤ 65535) :
    fillWidth w r = (f64round ((w : ℚ) * r)).toNat ∧
      (f64round ((w : ℚ) * r)).toNat ≤ w := by
  have hq : 0 ≤ (w : ℚ) * r := mul_nonneg (by positivity) h0
  have hfl : f64round ((w : ℚ) * r) = ⌊(w : ℚ) * r + 1/2⌋ := f64round_of_nonneg _ hq
  have hle : ⌊(w : ℚ) * r + 1/2⌋ ≤ (w : ℤ) := by
    have hstep : (w : ℚ) * r + 1/2 ≤ (w : ℚ) + 1/2 := by
      have := mul_le_of_le_one_right (by positivity : (0 : ℚ) ≤ (w : ℚ)) h1
      linarith
    calc ⌊(w : ℚ) * r + 1/2⌋ ≤ ⌊(w : ℚ) + 1/2⌋ := Int.floor_le_floor hstep
      _ = w := by
        rw [show ((w : ℚ)) = ((w : ℤ) : ℚ) by push_cast; ring, Int.floor_int_add]
        norm_num
  have htp : (f64round ((w : ℚ) * r)).toNat ≤ w := by
    rw [hfl]; exact Int.toNat_le.mpr hle
  exact ⟨by rw [fillWidth, f64_as_u16]; exact min_eq_left (le_trans htp hw), htp⟩

theorem fillWidth_ratio_zero (w : ℕ) : fillWidth w 0 = 0 := by
  have h : f64round ((w : ℚ) * 0) = 0 := by
    rw [f64round_of_nonneg _ (by norm_num)]
    norm_num
  rw [fillWidth, f64_as_u16, h]
  rfl

theorem fillWidth_ratio_one (w : ℕ) (hw : w ≤ 65535) : fillWidth w 1 = w := by
  have h : f64round ((w : ℚ) * 1) = w := by
    rw [f64round_of_nonneg _ (by positivity)]
    rw [show ((w : ℚ) * 1) = ((w : ℤ) : ℚ) by push_cast; ring, Int.floor_int_add]
    norm_num
  rw [fillWidth, f64_as_u16, h, Int.toNat_natCast]
  exact min_eq_left hw

theorem fillWidth_three_one : fillWidth 3 (1 : ℚ) = 3 := fillWidth_ratio_one 3 (by norm_num)

theorem fillWidth_ten_half : fillWidth 10 (1/2 : ℚ) = 5 := by
  have h : f64round ((10 : ℕ) * (1/2 : ℚ)) = 5 := by
    rw [f64round_of_nonneg _ (by norm_num)]
    norm_num
  rw [fillWidth, f64_as_u16, h]
  rfl

theorem renderLabel_gaugeHalf : gaugeHalf.renderLabel = Span.raw "50%" := by
  rw [Gauge2.renderLabel, show gaugeHalf.label = none from rfl, Option.getD_none]
  have h : f64round (gaugeHalf.ratio * 100) = 50 := by
    show f64round ((1/2 : ℚ) * 100) = 50
    rw [f64round_of_nonneg _ (by norm_num)]
    norm_num
  rw [h]
  rfl

theorem renderLabel_default : Gauge2.default.renderLabel = Span.raw "0%" := by
  rw [Gauge2.renderLabel, show Gauge2.default.label = none from rfl, Option.getD_none]
  have h : f64round (Gauge2.default.ratio * 100) = 0 := by
    show f64round ((0 : ℚ) * 100) = 0
    rw [f64round_of_nonneg _ (by norm_num)]
    norm_num
  rw [h]
  rfl

theorem renderLabel_gaugeFull : gaugeFull.renderLabel = Span.raw "100%" := by
  rw [Gauge2.renderLabel, show gaugeFull.label = none from rfl, Option.getD_none]
  have h : f64round (gaugeFull.ratio * 100) = 100 := by
    show f64round ((1 : ℚ) * 100) = 100
    rw [f64round_of_nonneg _ (by norm_num)]
    norm_num
  rw [h]
  rfl

theorem fillWidth_sixthousand_one : fillWidth 6000 (1 : ℚ) = 6000 :=
  fillWidth_ratio_one 6000 (by norm_num)

/-! ### The claims -/

/-- Claim C1: for every render call with a container configured and an
area of height exactly 1, the drawable rectangle equals the full area
itself, bypassing the container's inner-rectangle inset, while the
container is still drawn over the original area (the style phase hands
`area`, not the inner rectangle, to the container's renderer, and paints
the gauge style over the full area). -/
theorem C1_single_row_container_bypass (g : Gauge2) (b : Block) (area : Rect)
    (hb : g.block = some b) (h1 : area.height = 1) :
    g.gaugeArea area = area ∧
      ∀ buf : Buffer, g.prePaint area buf =
        (b.render area (buf.set_style area g.style)).set_style area g.gauge_style := by
  have hga : g.gaugeArea area = area := by
    simp [Gauge2.gaugeArea, hb, h1]
  refine ⟨hga, fun buf => ?_⟩
  simp only [Gauge2.prePaint, hb, hga]

theorem C1_witness :
    ({ Gauge2.default with block := some sampleBlock } : Gauge2).gaugeArea ⟨0, 0, 5, 1⟩ =
      ⟨0, 0, 5, 1⟩ :=
  (C1_single_row_container_bypass _ sampleBlock _ rfl rfl).1

/-- Claim C7: the percent setter succeeds exactly when the (unsigned)
argument is at most 100, in which case the stored ratio is `p / 100` and
the rest of the configuration is unchanged; for `p > 100` it panics
(modelled as `none`) instead of clamping. -/
theorem C7_percent_contract (g : Gauge2) (p : ℕ) :
    (p ≤ 100 → g.percent p = some { g with ratio := (p : ℚ) / 100 }) ∧
    (100 < p → g.percent p = none) := by
  constructor <;> intro h
  · rw [Gauge2.percent, if_pos h]
  · rw [Gauge2.percent, if_neg (by omega)]

theorem C7_witness :
    Gauge2.default.percent 20 = some { Gauge2.default with ratio := (20 : ℚ) / 100 } ∧
    Gauge2.default.percent 110 = none :=
  ⟨(C7_percent_contract Gauge2.default 20).1 (by norm_num),
   (C7_percent_contract Gauge2.default 110).2 (by norm_num)⟩

/-- Claim C8: the ratio setter succeeds exactly when `0 ≤ r ≤ 1` (both
boundaries included), storing `r`; for `r < 0` or `r > 1` it panics
(modelled as `none`). -/
theorem C8_ratio_contract (g : Gauge2) (q : ℚ) :
    ((0 ≤ q ∧ q ≤ 1) → g.ratio' (F64.finite q) = some { g with ratio := q }) ∧
    ((q < 0 ∨ 1 < q) → g.ratio' (F64.finite q) = none) := by
  constructor
  · rintro ⟨h0, h1⟩
    rw [Gauge2.ratio', if_pos]
    · rfl
    · simp only [F64.le, F64.ge, Bool.and_eq_true, decide_eq_true_eq]
      exact ⟨h1, h0⟩
  · intro h
    rw [Gauge2.ratio', if_neg]
    simp only [F64.le, F64.ge, Bool.and_eq_true, decide_eq_true_eq]
    rintro ⟨h1, h0⟩
    rcases h with h | h <;> linarith

theorem C8_witness :
    Gauge2.default.ratio' (F64.finite 0) = some { Gauge2.default with ratio := 0 } ∧
    Gauge2.default.ratio' (F64.finite 1) = some { Gauge2.default with ratio := 1 } ∧
    Gauge2.default.ratio' (F64.finite (11/10)) = none ∧
    Gauge2.default.ratio' (F64.finite (-(1/2))) = none :=
  ⟨(C8_ratio_contract Gauge2.default 0).1 ⟨le_refl 0, by norm_num⟩,
   (C8_ratio_contract Gauge2.default 1).1 ⟨by norm_num, le_refl 1⟩,
   (C8_ratio_contract Gauge2.default (11/10)).2 (Or.inr (by norm_num)),
   (C8_ratio_contract Gauge2.default (-(1/2))).2 (Or.inl (by norm_num))⟩

/-- Claim C10: the ratio setter rejects (panics on) NaN, because its guard
`r <= 1.0 && r >= 0.0` evaluates both comparisons to false on NaN — even
though NaN satisfies neither of the spec's failure conditions `r < 0.0`
and `r > 1.0`, which are also false on NaN. -/
theorem C10_nan_rejected (g : Gauge2) :
    g.ratio' F64.nan = none ∧
    F64.le F64.nan (F64.finite 1) = false ∧
    F64.ge F64.nan (F64.finite 0) = false ∧
    F64.lt F64.nan (F64.finite 0) = false ∧
    F64.lt (F64.finite 1) F64.nan = false := by
  refine ⟨?_, rfl, rfl, rfl, rfl⟩
  rw [Gauge2.ratio', if_neg]
  simp [F64.le]

/-- Claim C4 counterexample: for a drawable rectangle of width 1 and a
label of width 4 (for example `"100%"`), the spec's signed formula
`left + (width - label_width) / 2` yields the negative column `-2`, but
the code's `u16` arithmetic (`labelMiddle`, translated from the source's
`(gauge_area.width - label_width) / 2 + gauge_area.left()`) wraps the
subtraction modulo 2^16 and yields column 32766 — the two disagree, and
the code's value is never negative. -/
theorem C4_counterexample :
    labelMiddle ⟨0, 0, 1, 1⟩ 4 = 32766 ∧ middleSpec ⟨0, 0, 1, 1⟩ 4 = -2 ∧
      ((labelMiddle ⟨0, 0, 1, 1⟩ 4 : ℤ) ≠ middleSpec ⟨0, 0, 1, 1⟩ 4) :=
  ⟨by decide, by decide, by decide⟩

/-- Claim C4 (amended): the label start column is computed entirely in
unsigned 16-bit wrapping arithmetic — both the subtraction
`width - label_width` and the final addition of `drawable.left` wrap
modulo 2^16.  It agrees with the spec's signed floor-division formula
exactly when the label fits and the sum `left + (width - label_width)/2`
needs no wrap; it is a natural number, never negative, so whenever the
spec's formula is negative the two disagree. -/
theorem C4_label_middle_unsigned (ga : Rect) (lw : ℕ)
    (hw : ga.width < 65536) (hl : lw < 65536) (hx : ga.left < 65536) :
    (lw ≤ ga.width →
      labelMiddle ga lw = (ga.left + (ga.width - lw) / 2) % 65536 ∧
        (ga.left + (ga.width - lw) / 2 < 65536 →
          middleSpec ga lw = (labelMiddle ga lw : ℤ))) ∧
    (ga.width < lw →
      labelMiddle ga lw = (ga.left + (ga.width + 65536 - lw) / 2) % 65536 ∧
        (middleSpec ga lw < 0 → (labelMiddle ga lw : ℤ) ≠ middleSpec ga lw)) := by
  unfold labelMiddle u16_wrapping_sub u16_wrapping_add middleSpec Rect.left
  constructor <;> intro h
  · exact ⟨by omega, fun hnw => by omega⟩
  · exact ⟨by omega, fun hneg => by omega⟩

theorem C4_witness :
    (labelMiddle ⟨2, 0, 10, 1⟩ 4 = (2 + (10 - 4) / 2) % 65536 ∧
      (2 + (10 - 4) / 2 < 65536 →
        middleSpec ⟨2, 0, 10, 1⟩ 4 = (labelMiddle ⟨2, 0, 10, 1⟩ 4 : ℤ))) ∧
    (labelMiddle ⟨2, 0, 1, 1⟩ 4 = (2 + (1 + 65536 - 4) / 2) % 65536 ∧
      (middleSpec ⟨2, 0, 1, 1⟩ 4 < 0 →
        (labelMiddle ⟨2, 0, 1, 1⟩ 4 : ℤ) ≠ middleSpec ⟨2, 0, 1, 1⟩ 4)) :=
  ⟨(C4_label_middle_unsigned ⟨2, 0, 10, 1⟩ 4 (by decide) (by decide) (by decide)).1 (by decide),
   (C4_label_middle_unsigned ⟨2, 0, 1, 1⟩ 4 (by decide) (by decide) (by decide)).2 (by decide)⟩

/-- Claim C5 (amended): only a drawable rectangle of zero height triggers
the degenerate-geometry short circuit — the render is then exactly the
style phase, with no fill or label painting and no abort.  (A zero-width
drawable does not short-circuit: the fill loops are vacuous, but the label
write still executes at a wrapped column, as the counterexample shows.) -/
theorem C5_degenerate_height_short_circuit (g : Gauge2) (area : Rect) (buf : Buffer)
    (h : (g.gaugeArea area).height = 0) :
    g.render area buf = g.prePaint area buf := by
  simp only [Gauge2.render]
  rw [if_pos (by omega)]

theorem C5_witness :
    Gauge2.default.render ⟨0, 0, 4, 0⟩ buf10x3 = Gauge2.default.prePaint ⟨0, 0, 4, 0⟩ buf10x3 :=
  C5_degenerate_height_short_circuit Gauge2.default ⟨0, 0, 4, 0⟩ buf10x3 rfl

/-- Claim C5 counterexample: a zero-width (but height-1) drawable does not
short-circuit.  Rendering the default gauge into a zero-width area still
writes the default label `"0%"` — at the wrapped column 32767, which a
wide buffer owns — so the buffer does not merely retain the already
painted styles: cell (32767, 0) ends up holding the glyph `"0"`, while the
style phase alone leaves the fresh space there. -/
theorem C5_counterexample :
    ((Gauge2.default.render ⟨0, 0, 0, 1⟩ wideBuf).content 32767 0).symbol = "0" ∧
    ((Gauge2.default.prePaint ⟨0, 0, 0, 1⟩ wideBuf).content 32767 0).symbol = " " := by
  constructor
  · rw [Gauge2.render_content Gauge2.default ⟨0, 0, 0, 1⟩ wideBuf (by decide) 32767 0,
      if_pos ⟨by decide, by decide, by decide⟩]
    rw [show fillWidth (Gauge2.default.gaugeArea ⟨0, 0, 0, 1⟩).width Gauge2.default.ratio = 0 from
      fillWidth_ratio_zero 0]
    rw [renderLabel_default]
    decide
  · decide

/-- Claim C9: with no explicit label configured, the label used by the
render pass is the text `round(ratio*100)` followed by `"%"`, the rounding
being round-half-up (`⌊x + 1/2⌋`) on the nonnegative stored ratio; an
explicitly configured label overrides this default. -/
theorem C9_default_label (g : Gauge2) (h0 : 0 ≤ g.ratio) :
    (g.label = none →
      g.renderLabel = Span.raw (toString ⌊g.ratio * 100 + 1/2⌋ ++ "%")) ∧
    (∀ l : Span, g.label = some l → g.renderLabel = l) := by
  constructor
  · intro hl
    rw [Gauge2.renderLabel, hl, Option.getD_none,
      f64round_of_nonneg _ (mul_nonneg h0 (by norm_num))]
  · intro l hl
    rw [Gauge2.renderLabel, hl, Option.getD_some]

theorem C9_witness :
    gaugeHalf.renderLabel = Span.raw "50%" ∧
    ({ Gauge2.default with label := some (Span.raw "hi") } : Gauge2).renderLabel =
      Span.raw "hi" := by
  constructor
  · have h := (C9_default_label gaugeHalf (by (show (0:ℚ) ≤ 1/2); norm_num)).1 rfl
    rw [h]
    rw [show ⌊gaugeHalf.ratio * 100 + 1/2⌋ = (50 : ℤ) from by (show ⌊(1/2 : ℚ) * 100 + 1/2⌋ = (50 : ℤ)); norm_num]
    rfl
  · exact (C9_default_label { Gauge2.default with label := some (Span.raw "hi") }
      (le_refl 0)).2 (Span.raw "hi") rfl

/-- Claim C2 counterexample: the fill end column is a `u16` sum and wraps.
For the drawable rectangle (x 60000, width 6000, height 1) — a rectangle
whose right edge exceeds the `u16` range — and ratio 1, the program's fill
end `60000 + 6000` wraps to 464, so the fill and swap loops paint nothing:
the owned cell (60001, 0), squarely inside the claim's range
`[left, left + fill_width)`, keeps the unswapped foreground
`gauge_style.fg = Green` instead of the claimed swapped
`gauge_style.bg = Black`. -/
theorem C2_counterexample :
    ((gaugeFull.render ⟨60000, 0, 6000, 1⟩ bufFarRight).content 60001 0).fg = Color.Green ∧
    Color.Green ≠ gaugeFull.gauge_style.bg.getD Color.Reset := by
  refine ⟨?_, by decide⟩
  rw [Gauge2.render_content gaugeFull ⟨60000, 0, 6000, 1⟩ bufFarRight (by decide) 60001 0,
    if_pos ⟨by decide, by decide, by decide⟩]
  rw [show fillWidth (gaugeFull.gaugeArea ⟨60000, 0, 6000, 1⟩).width gaugeFull.ratio = 6000 from
    fillWidth_sixthousand_one]
  rw [renderLabel_gaugeFull]
  decide

/-- Claim C2 (amended): whenever the painting loop is reached and the fill
end `left + fill_width` does not leave the `u16` range, every cell of
every drawable row whose column lies in the fill range — including the
cells of the center row that the label overwrote — ends up with foreground
equal to `gauge_style.bg` (reset when unset) and background equal to
`gauge_style.fg` (reset when unset): the color-swap pass runs after the
label write on each row, so it wins.  (When the sum wraps, the fill and
swap loops cover the wrapped — possibly empty — range instead, as the
counterexample shows.) -/
theorem C2_fill_colors_swapped_under_label (g : Gauge2) (area : Rect) (buf : Buffer)
    (x y : ℕ)
    (hh : 1 ≤ (g.gaugeArea area).height)
    (hnw : (g.gaugeArea area).left + fillWidth (g.gaugeArea area).width g.ratio < 65536)
    (hy1 : (g.gaugeArea area).top ≤ y) (hy2 : y < (g.gaugeArea area).bottom)
    (hx1 : (g.gaugeArea area).left ≤ x)
    (hx2 : x < (g.gaugeArea area).left + fillWidth (g.gaugeArea area).width g.ratio)
    (hc : (g.prePaint area buf).area.containsB x y = true) :
    ((g.render area buf).content x y).fg = g.gauge_style.bg.getD Color.Reset ∧
    ((g.render area buf).content x y).bg = g.gauge_style.fg.getD Color.Reset := by
  have he : u16_wrapping_add (g.gaugeArea area).left
      (fillWidth (g.gaugeArea area).width g.ratio) =
      (g.gaugeArea area).left + fillWidth (g.gaugeArea area).width g.ratio :=
    Nat.mod_eq_of_lt hnw
  rw [Gauge2.render_content g area buf hh x y, if_pos ⟨hy1, hy2, hc⟩, he]
  exact ⟨rowCell_fill_fg _ _ _ _ _ _ _ _ ⟨hx1, hx2⟩, rowCell_fill_bg _ _ _ _ _ _ _ _ ⟨hx1, hx2⟩⟩

theorem C2_witness :
    ((gaugeFull.render ⟨0, 0, 3, 1⟩ buf5x2).content 1 0).fg = Color.Black ∧
    ((gaugeFull.render ⟨0, 0, 3, 1⟩ buf5x2).content 1 0).bg = Color.Green :=
  C2_fill_colors_swapped_under_label gaugeFull ⟨0, 0, 3, 1⟩ buf5x2 1 0
    (by decide)
    (by (show 0 + fillWidth 3 (1:ℚ) < 65536); rw [fillWidth_three_one]; norm_num)
    (by decide) (by decide) (by decide)
    (by (show (1:ℕ) < 0 + fillWidth 3 (1:ℚ)); rw [fillWidth_three_one]; norm_num)
    (by decide)

/-- Claim C3 counterexample: same wrap as for C2.  At the drawable
rectangle (x 60000, width 6000, height 1) with ratio 1 the claim's count
`round(W*r)` is 6000, but the program's fill loop runs over the wrapped —
here empty — column range [60000, 464), so no cell of the row receives the
space symbol and the swapped colors: the owned in-range cell (60002, 0)
keeps the unswapped foreground Green. -/
theorem C3_counterexample :
    (Finset.Ico (gaugeFull.gaugeArea ⟨60000, 0, 6000, 1⟩).left
        (u16_wrapping_add (gaugeFull.gaugeArea ⟨60000, 0, 6000, 1⟩).left
          (fillWidth (gaugeFull.gaugeArea ⟨60000, 0, 6000, 1⟩).width gaugeFull.ratio))).card = 0 ∧
    (f64round (((gaugeFull.gaugeArea ⟨60000, 0, 6000, 1⟩).width : ℚ) * gaugeFull.ratio)).toNat =
      6000 ∧
    ((gaugeFull.render ⟨60000, 0, 6000, 1⟩ bufFarRight).content 60002 0).fg = Color.Green ∧
    Color.Green ≠ gaugeFull.gauge_style.bg.getD Color.Reset := by
  refine ⟨?_, ?_, ?_, by decide⟩
  · rw [show fillWidth (gaugeFull.gaugeArea ⟨60000, 0, 6000, 1⟩).width gaugeFull.ratio = 6000 from
      fillWidth_sixthousand_one]
    decide
  · rw [show f64round (((gaugeFull.gaugeArea ⟨60000, 0, 6000, 1⟩).width : ℚ) * gaugeFull.ratio) =
        6000 from by
      (show f64round ((6000 : ℕ) * (1 : ℚ)) = 6000)
      rw [f64round_of_nonneg _ (by norm_num)]
      rw [show ((6000 : ℕ) * (1 : ℚ)) = (((6000 : ℤ)) : ℚ) by push_cast; ring, Int.floor_int_add]
      norm_num]
    rfl
  · rw [Gauge2.render_content gaugeFull ⟨60000, 0, 6000, 1⟩ bufFarRight (by decide) 60002 0,
      if_pos ⟨by decide, by decide, by decide⟩]
    rw [show fillWidth (gaugeFull.gaugeArea ⟨60000, 0, 6000, 1⟩).width gaugeFull.ratio = 6000 from
      fillWidth_sixthousand_one]
    rw [renderLabel_gaugeFull]
    decide

/-- Claim C3 (amended): for a drawable rectangle of width `W` and a
configured ratio `r ∈ [0, 1]`, provided the fill end `left + round(W*r)`
does not leave the `u16` range, the number of columns per drawable row
that the fill and color-swap passes paint equals `round(W*r)` — 0 when
`r = 0` and `W` when `r = 1` — and every cell in that range of a drawable
row ends up with the swapped fill colors (and, off the center row, the
space symbol).  When the sum wraps, the loops run over the wrapped range
and the painted count is smaller, as the counterexample shows. -/
theorem C3_fill_cell_count (g : Gauge2) (area : Rect) (buf : Buffer)
    (h0 : 0 ≤ g.ratio) (h1 : g.ratio ≤ 1)
    (hw : (g.gaugeArea area).width ≤ 65535)
    (hnw : (g.gaugeArea area).left + fillWidth (g.gaugeArea area).width g.ratio < 65536)
    (hh : 1 ≤ (g.gaugeArea area).height) :
    (Finset.Ico (g.gaugeArea area).left
        ((g.gaugeArea area).left + fillWidth (g.gaugeArea area).width g.ratio)).card =
      (f64round (((g.gaugeArea area).width : ℚ) * g.ratio)).toNat ∧
    (g.ratio = 0 → fillWidth (g.gaugeArea area).width g.ratio = 0) ∧
    (g.ratio = 1 → fillWidth (g.gaugeArea area).width g.ratio = (g.gaugeArea area).width) ∧
    (∀ y x : ℕ, (g.gaugeArea area).top ≤ y → y < (g.gaugeArea area).bottom →
      (g.gaugeArea area).left ≤ x →
      x < (g.gaugeArea area).left + fillWidth (g.gaugeArea area).width g.ratio →
      (g.prePaint area buf).area.containsB x y = true →
      ((g.render area buf).content x y).fg = g.gauge_style.bg.getD Color.Reset ∧
      ((g.render area buf).content x y).bg = g.gauge_style.fg.getD Color.Reset ∧
      (y ≠ u16_wrapping_add ((g.gaugeArea area).height / 2) (g.gaugeArea area).top →
        ((g.render area buf).content x y).symbol = " ")) := by
  obtain ⟨hfw, -⟩ := fillWidth_eq_toNat (g.gaugeArea area).width g.ratio h0 h1 hw
  refine ⟨?_, fun hr => ?_, fun hr => ?_, ?_⟩
  · rw [Nat.card_Ico, hfw]; omega
  · rw [hr]; exact fillWidth_ratio_zero _
  · rw [hr]; exact fillWidth_ratio_one _ hw
  · intro y x hy1 hy2 hx1 hx2 hc
    have he : u16_wrapping_add (g.gaugeArea area).left
        (fillWidth (g.gaugeArea area).width g.ratio) =
        (g.gaugeArea area).left + fillWidth (g.gaugeArea area).width g.ratio :=
      Nat.mod_eq_of_lt hnw
    rw [Gauge2.render_content g area buf hh x y, if_pos ⟨hy1, hy2, hc⟩, he]
    exact ⟨rowCell_fill_fg _ _ _ _ _ _ _ _ ⟨hx1, hx2⟩,
      rowCell_fill_bg _ _ _ _ _ _ _ _ ⟨hx1, hx2⟩,
      fun hyc => rowCell_fill_symbol_noncenter _ _ _ _ _ _ _ _ ⟨hx1, hx2⟩ hyc⟩

theorem C3_witness :
    (Finset.Ico (gaugeHalf.gaugeArea ⟨0, 0, 10, 3⟩).left
        ((gaugeHalf.gaugeArea ⟨0, 0, 10, 3⟩).left +
          fillWidth (gaugeHalf.gaugeArea ⟨0, 0, 10, 3⟩).width gaugeHalf.ratio)).card =
      (f64round (((gaugeHalf.gaugeArea ⟨0, 0, 10, 3⟩).width : ℚ) * gaugeHalf.ratio)).toNat ∧
    fillWidth (gaugeFull.gaugeArea ⟨0, 0, 3, 1⟩).width gaugeFull.ratio =
      (gaugeFull.gaugeArea ⟨0, 0, 3, 1⟩).width :=
  ⟨(C3_fill_cell_count gaugeHalf ⟨0, 0, 10, 3⟩ buf10x3
      (by (show (0:ℚ) ≤ 1/2); norm_num) (by (show (1/2:ℚ) ≤ 1); norm_num)
      (by decide)
      (by (show 0 + fillWidth 10 (1/2 : ℚ) < 65536); rw [fillWidth_ten_half]; norm_num)
      (by decide)).1,
   (C3_fill_cell_count gaugeFull ⟨0, 0, 3, 1⟩ buf5x2
      (by (show (0:ℚ) ≤ 1); norm_num) (le_refl 1)
      (by decide)
      (by (show 0 + fillWidth 3 (1 : ℚ) < 65536); rw [fillWidth_three_one]; norm_num)
      (by decide)).2.2.1 rfl⟩

/-- Claim C6 counterexample: the center row is a `u16` sum and wraps.  For
the drawable rectangle (y 65535, height 2, width 10) with ratio 1/2, the
claim's label row is `top + height/2 = 65536` and the label "50%" should
start at column `(10-3)/2 = 3`; but the program computes
`(2/2 + 65535) mod 2^16 = 0`, a row outside the drawable range, so the
label is written on no row at all: the owned cell (3, 65536) holds the
fill-pass space, not the glyph "5". -/
theorem C6_counterexample :
    u16_wrapping_add ((gaugeHalf.gaugeArea ⟨0, 65535, 10, 2⟩).height / 2)
      (gaugeHalf.gaugeArea ⟨0, 65535, 10, 2⟩).top = 0 ∧
    ((gaugeHalf.render ⟨0, 65535, 10, 2⟩ bufTopEdge).content 3 65536).symbol = " " ∧
    String.mk [(Span.raw "50%").content.getD 0 ' '] = "5" ∧ (" " : String) ≠ "5" := by
  refine ⟨by decide, ?_, by decide, by decide⟩
  rw [Gauge2.render_content gaugeHalf ⟨0, 65535, 10, 2⟩ bufTopEdge (by decide) 3 65536,
    if_pos ⟨by decide, by decide, by decide⟩]
  rw [show fillWidth (gaugeHalf.gaugeArea ⟨0, 65535, 10, 2⟩).width gaugeHalf.ratio = 5 from
    fillWidth_ten_half]
  rw [renderLabel_gaugeHalf]
  decide

/-- Claim C6 (amended): for a drawable rectangle taller than one row,
provided the center row `top + height/2` does not leave the `u16` range,
the label is written on exactly the row `top + height/2` (integer
division): every other drawable row only ever holds a space written by the
fill pass or its style-phase symbol (no label glyph), while on the center
row the clipped, buffer-owned label columns hold the label's glyphs.  When
the sum wraps, the computed center row lies outside the drawable rows and
the label is written nowhere, as the counterexample shows. -/
theorem C6_label_single_row (g : Gauge2) (area : Rect) (buf : Buffer)
    (hh : 1 < (g.gaugeArea area).height)
    (hnc : (g.gaugeArea area).height / 2 + (g.gaugeArea area).top < 65536) :
    (∀ y x : ℕ, (g.gaugeArea area).top ≤ y → y < (g.gaugeArea area).bottom →
      y ≠ (g.gaugeArea area).height / 2 + (g.gaugeArea area).top →
      ((g.render area buf).content x y).symbol = " " ∨
      ((g.render area buf).content x y).symbol =
        ((g.prePaint area buf).content x y).symbol) ∧
    (∀ i : ℕ,
      i < min g.renderLabel.content.length
        (u16_wrapping_sub (g.gaugeArea area).right
          (labelMiddle (g.gaugeArea area) (g.renderLabel.width % 65536))) →
      (g.prePaint area buf).area.containsB
        (labelMiddle (g.gaugeArea area) (g.renderLabel.width % 65536) + i)
        ((g.gaugeArea area).height / 2 + (g.gaugeArea area).top) = true →
      ((g.render area buf).content
          (labelMiddle (g.gaugeArea area) (g.renderLabel.width % 65536) + i)
          ((g.gaugeArea area).height / 2 + (g.gaugeArea area).top)).symbol =
        String.mk [g.renderLabel.content.getD i ' ']) := by
  have hh1 : 1 ≤ (g.gaugeArea area).height := by omega
  have hbt : (g.gaugeArea area).bottom = (g.gaugeArea area).top + (g.gaugeArea area).height := rfl
  have hcen : u16_wrapping_add ((g.gaugeArea area).height / 2) (g.gaugeArea area).top =
      (g.gaugeArea area).height / 2 + (g.gaugeArea area).top := Nat.mod_eq_of_lt hnc
  constructor
  · intro y x hy1 hy2 hyc
    rw [Gauge2.render_content g area buf hh1 x y]
    by_cases hcc : (g.prePaint area buf).area.containsB x y = true
    · rw [if_pos ⟨hy1, hy2, hcc⟩, hcen]
      by_cases hf : (g.gaugeArea area).left ≤ x ∧
          x < u16_wrapping_add (g.gaugeArea area).left (fillWidth (g.gaugeArea area).width g.ratio)
      · left
        exact rowCell_fill_symbol_noncenter _ _ _ _ _ _ _ _ hf hyc
      · right
        exact rowCell_symbol_of_not_fill _ _ _ _ _ _ _ _ hf hyc
    · rw [if_neg (by rintro ⟨-, -, k⟩; exact hcc k)]
      right
      rfl
  · intro i hi hcont
    rw [Gauge2.render_content g area buf hh1 _ _]
    rw [if_pos ⟨by omega, by omega, hcont⟩, hcen]
    rw [rowCell_label_symbol _ _ _ _ _ _ _ _
      ⟨rfl, Nat.le_add_right _ i, Nat.add_lt_add_left hi _⟩]
    rw [Nat.add_sub_cancel_left]

theorem C6_witness :
    (((gaugeHalf.render ⟨0, 0, 10, 3⟩ buf10x3).content 2 0).symbol = " " ∨
      ((gaugeHalf.render ⟨0, 0, 10, 3⟩ buf10x3).content 2 0).symbol =
        ((gaugeHalf.prePaint ⟨0, 0, 10, 3⟩ buf10x3).content 2 0).symbol) ∧
    ((gaugeHalf.render ⟨0, 0, 10, 3⟩ buf10x3).content 3 1).symbol = "5" := by
  have h := C6_label_single_row gaugeHalf ⟨0, 0, 10, 3⟩ buf10x3 (by decide) (by decide)
  refine ⟨h.1 0 2 (by decide) (by decide) (by decide), ?_⟩
  have h2 := h.2 0 (by rw [renderLabel_gaugeHalf]; decide) (by rw [renderLabel_gaugeHalf]; decide)
  rw [renderLabel_gaugeHalf] at h2
  rw [show labelMiddle (gaugeHalf.gaugeArea ⟨0, 0, 10, 3⟩) ((Span.raw "50%").width % 65536) + 0 = 3
        from by decide,
      show (gaugeHalf.gaugeArea ⟨0, 0, 10, 3⟩).height / 2 + (gaugeHalf.gaugeArea ⟨0, 0, 10, 3⟩).top = 1
        from by decide,
      show String.mk [(Span.raw "50%").content.getD 0 ' '] = "5" from by decide] at h2
  exact h2

end Vdash
